import Mathlib

/-!
Shallow embedding of the rudder-server sources under verification:

* `event-schema/counter_manager.go` — the in-memory frequency-counter cache
  (`countersCache`, `populateFrequencyCountersBounded`,
  `getFrequencyCounterBounded`, `getSchemaVersionCounters`).
* `warehouse/postgres/postgresQueryBuilder.go` — `handleQueryExecution`.

Go maps are modelled as association lists with distinct-key store semantics
(`insertA` overwrites in place, else appends); Go's unspecified map iteration
order is modelled as list order, which realises one admissible order.
Go `float64` frequencies are modelled as `ℚ`: the only arithmetic performed on
them by the embedded code is comparison and assignment, which are exact.
-/

/-- One entry reported by a frequency counter: a concrete field value and the
frequency (a ratio of counts) with which it was seen. -/
structure CounterEntry where
  Key : String
  Frequency : ℚ
  deriving DecidableEq

/-- In-memory frequency counter. `counter_manager.go` uses only its `Name`,
the constructors and `ItemsAboveThreshold`.
Modelled from the spec: the counter internals (its sketch, the persistence
wrapper and the reporting threshold) are not under src/, so a counter carries
its name, whether it wraps a counter persisted in storage, and the list of
entries its `ItemsAboveThreshold` reports (each entry a ratio, so its
frequency can exceed 1 before capping). -/
structure FrequencyCounter where
  Name : String
  persisted : Bool
  itemsAboveThreshold : List CounterEntry
  deriving DecidableEq

/-- Modelled from the spec: `NewFrequencyCounter(key)` (not under src/) creates
a fresh, empty counter tracking field `key`. -/
def NewFrequencyCounter (key : String) : FrequencyCounter :=
  { Name := key, persisted := false, itemsAboveThreshold := [] }

/-- Modelled from the spec: `NewPeristedFrequencyCounter(fc)` (not under src/)
wraps a counter loaded from storage into its in-memory form, keeping its name
and entries. -/
def NewPeristedFrequencyCounter (fc : FrequencyCounter) : FrequencyCounter :=
  { fc with persisted := true }

/-- `CounterItem` from `counter_manager.go`: a reported value with its
(capped) frequency. -/
structure CounterItem where
  Value : String
  Frequency : ℚ
  deriving DecidableEq

/-- Lookup in a Go map modelled as an association list. -/
def lookupA {α : Type} (k : String) : List (String × α) → Option α
  | [] => none
  | (k₀, v) :: rest => if k₀ = k then some v else lookupA k rest

/-- Store into a Go map modelled as an association list: overwrite in place
when the key is present, append otherwise. -/
def insertA {α : Type} (k : String) (v : α) : List (String × α) → List (String × α)
  | [] => [(k, v)]
  | (k₀, v₀) :: rest => if k₀ = k then (k, v) :: rest else (k₀, v₀) :: insertA k v rest

/-- One schema hash's bucket: field key → frequency counter. -/
abbrev Bucket := List (String × FrequencyCounter)

/-- `countersCache`: schemaHash → field key → frequency counter. -/
abbrev CountersCache := List (String × Bucket)

/-- The loop body of `populateFrequencyCountersBounded`: walk the persisted
counters, stop once `count` reaches `bound`, store each wrapped counter under
its name. -/
def populateLoop (bound : Nat) : List FrequencyCounter → Nat → Bucket → Bucket
  | [], _, m => m
  | fc :: rest, count, m =>
    if count ≥ bound then m
    else populateLoop bound rest (count + 1) (insertA fc.Name (NewPeristedFrequencyCounter fc) m)

/-- `populateFrequencyCountersBounded` from `counter_manager.go`: rebuild the
bucket for `schemaHash` from at most `bound` of the given persisted counters
and store it, replacing any previous bucket. -/
def populateFrequencyCountersBounded (cache : CountersCache) (schemaHash : String)
    (frequencyCounters : List FrequencyCounter) (bound : Nat) : CountersCache :=
  insertA schemaHash (populateLoop bound frequencyCounters 0 []) cache

/-- `getFrequencyCounterBounded` from `counter_manager.go`, with the cache
passed explicitly. Returns the counter the Go function returns (`none` for
`nil`) and the updated cache. `bound` is the config limit, a count, so `Nat`;
the Go code computes `diff := bound - len` as an `int` and branches on its
sign, embedded here as the corresponding comparisons. -/
def getFrequencyCounterBounded (cache : CountersCache) (schemaHash key : String)
    (bound : Nat) : Option FrequencyCounter × CountersCache :=
  let found := lookupA schemaHash cache
  let svc := found.getD []
  let cache₀ := match found with
    | some _ => cache
    | none => insertA schemaHash [] cache
  if bound = svc.length then
    -- diff == 0: bound reached, just look the key up, add nothing.
    (lookupA key svc, cache₀)
  else if svc.length > bound then
    -- diff < 0: trim the first (len - bound) keys in iteration order,
    -- then return the lookup in the trimmed bucket.
    let svc₂ := svc.drop (svc.length - bound)
    (lookupA key svc₂, insertA schemaHash svc₂ cache₀)
  else
    -- diff > 0: return the existing counter, or add a fresh one.
    match lookupA key svc with
    | some frequencyCounter => (some frequencyCounter, cache₀)
    | none =>
      let frequencyCounter := NewFrequencyCounter key
      (some frequencyCounter, insertA schemaHash (insertA key frequencyCounter svc) cache₀)

/-- The per-field step of `getSchemaVersionCounters`: cap each reported
frequency at 1, and store the item list only when it is non-empty. -/
def svcStep (counters : List (String × List CounterItem)) (p : String × FrequencyCounter) :
    List (String × List CounterItem) :=
  let entries := p.2.itemsAboveThreshold
  let counterItems := entries.map (fun entry =>
    let freq := entry.Frequency
    let freq := if freq > 1 then (1 : ℚ) else freq
    { Value := entry.Key, Frequency := freq : CounterItem })
  if counterItems.length > 0 then insertA p.1 counterItems counters else counters

/-- `getSchemaVersionCounters` from `counter_manager.go`: for the given schema
hash, the reportable items of every tracked field, frequencies capped at 1,
fields with no reportable item omitted. -/
def getSchemaVersionCounters (cache : CountersCache) (schemaHash : String) :
    List (String × List CounterItem) :=
  let svc := (lookupA schemaHash cache).getD []
  svc.foldl svcStep []

/-! ### Lemmas about the association-list map operations -/

theorem lookupA_insertA_self {α : Type} (k : String) (v : α) (l : List (String × α)) :
    lookupA k (insertA k v l) = some v := by
  induction l with
  | nil => simp [insertA, lookupA]
  | cons p rest ih =>
    obtain ⟨k₀, v₀⟩ := p
    by_cases h : k₀ = k
    · simp [insertA, lookupA, h]
    · simp [insertA, lookupA, h, ih]

theorem lookupA_insertA_ne {α : Type} {k k₁ : String} (hne : k₁ ≠ k) (v : α)
    (l : List (String × α)) : lookupA k₁ (insertA k v l) = lookupA k₁ l := by
  induction l with
  | nil =>
    have h₂ : ¬k = k₁ := fun h => hne h.symm
    simp [insertA, lookupA, h₂]
  | cons p rest ih =>
    obtain ⟨k₀, v₀⟩ := p
    by_cases h : k₀ = k
    · subst h
      have h₂ : ¬k₀ = k₁ := fun h => hne h.symm
      simp [insertA, lookupA, h₂]
    · by_cases h₁ : k₀ = k₁ <;> simp [insertA, lookupA, h, h₁, hne, ih]

theorem insertA_length_of_lookupA_none {α : Type} {k : String} {l : List (String × α)}
    (h : lookupA k l = none) (v : α) : (insertA k v l).length = l.length + 1 := by
  induction l with
  | nil => simp [insertA]
  | cons p rest ih =>
    obtain ⟨k₀, v₀⟩ := p
    by_cases hk : k₀ = k
    · simp [lookupA, hk] at h
    · simp only [lookupA, hk, if_false] at h
      simp [insertA, hk, ih h]

theorem mem_insertA {α : Type} {p : String × α} {k : String} {v : α}
    {l : List (String × α)} (h : p ∈ insertA k v l) : p = (k, v) ∨ p ∈ l := by
  induction l with
  | nil => simpa [insertA] using h
  | cons q rest ih =>
    obtain ⟨k₀, v₀⟩ := q
    by_cases hk : k₀ = k
    · rcases (by simpa [insertA, hk] using h) with h₁ | h₁
      · exact Or.inl h₁
      · exact Or.inr (List.mem_cons_of_mem _ h₁)
    · rcases (by simpa [insertA, hk] using h) with h₁ | h₁
      · exact Or.inr (by simp [h₁])
      · rcases ih h₁ with h₂ | h₂
        · exact Or.inl h₂
        · exact Or.inr (List.mem_cons_of_mem _ h₂)

/-- After `getFrequencyCounterBounded`, the requested schema hash always has a
bucket; the helper names the bucket present in the intermediate cache. -/
theorem lookupA_cache_after_find (cache : CountersCache) (schemaHash : String) :
    lookupA schemaHash
      (match lookupA schemaHash cache with
        | some _ => cache
        | none => insertA schemaHash ([] : Bucket) cache) =
      some ((lookupA schemaHash cache).getD []) := by
  cases h : lookupA schemaHash cache with
  | some b => simp [h]
  | none => simp [h, lookupA_insertA_self]

theorem insertA_length_le {α : Type} (k : String) (v : α) (l : List (String × α)) :
    (insertA k v l).length ≤ l.length + 1 := by
  induction l with
  | nil => simp [insertA]
  | cons p rest ih =>
    obtain ⟨k₀, v₀⟩ := p
    by_cases h : k₀ = k
    · simp [insertA, h]
    · simp only [insertA, h, if_false, List.length_cons]
      omega

theorem populateLoop_length_le (bound : Nat) (fcs : List FrequencyCounter) :
    ∀ (count : Nat) (m : Bucket),
      (populateLoop bound fcs count m).length ≤ m.length + (bound - count) := by
  induction fcs with
  | nil => intro count m; simp [populateLoop]
  | cons fc rest ih =>
    intro count m
    by_cases h : count ≥ bound
    · simp [populateLoop, h]
    · have h₁ := ih (count + 1) (insertA fc.Name (NewPeristedFrequencyCounter fc) m)
      have h₂ := insertA_length_le fc.Name (NewPeristedFrequencyCounter fc) m
      simp only [populateLoop, h, if_false]
      omega

/-- The bucket left behind by `getFrequencyCounterBounded` exists and has at
most `bound` entries. -/
theorem getFCB_bucket_le (cache : CountersCache) (schemaHash key : String) (bound : Nat) :
    ∃ bkt, lookupA schemaHash (getFrequencyCounterBounded cache schemaHash key bound).2
      = some bkt ∧ bkt.length ≤ bound := by
  cases hfound : lookupA schemaHash cache with
  | none =>
    by_cases h0 : bound = 0
    · subst h0
      exact ⟨[], by simp [getFrequencyCounterBounded, hfound, lookupA_insertA_self], by simp⟩
    · refine ⟨[(key, NewFrequencyCounter key)], ?_, ?_⟩
      · simp [getFrequencyCounterBounded, hfound, h0, insertA, lookupA, lookupA_insertA_self]
      · simpa using Nat.one_le_iff_ne_zero.mpr h0
  | some bkt =>
    by_cases hb : bound = bkt.length
    · exact ⟨bkt, by simp [getFrequencyCounterBounded, hfound, hb], le_of_eq hb.symm⟩
    · by_cases hgt : bkt.length > bound
      · refine ⟨bkt.drop (bkt.length - bound), ?_, ?_⟩
        · simp [getFrequencyCounterBounded, hfound, hb, hgt, lookupA_insertA_self]
        · simp only [List.length_drop]
          omega
      · have hlt : bkt.length < bound := by omega
        cases hkey : lookupA key bkt with
        | some fc =>
          exact ⟨bkt, by simp [getFrequencyCounterBounded, hfound, hb, hgt, hkey], le_of_lt hlt⟩
        | none =>
          refine ⟨insertA key (NewFrequencyCounter key) bkt, ?_, ?_⟩
          · simp [getFrequencyCounterBounded, hfound, hb, hgt, hkey, lookupA_insertA_self]
          · rw [insertA_length_of_lookupA_none hkey]
            omega

/-- C1: immediately after `getFrequencyCounterBounded(schemaHash, key, b)` or
`populateFrequencyCountersBounded(schemaHash, counters, b)`, the bucket
`countersCache[schemaHash]` exists and contains at most `b` counters; in
particular a bucket found strictly larger than `b` is trimmed back within the
same call. -/
theorem countersCache_bound_invariant (cache : CountersCache) (schemaHash key : String)
    (counters : List FrequencyCounter) (b : Nat) :
    (∃ bkt, lookupA schemaHash (getFrequencyCounterBounded cache schemaHash key b).2
        = some bkt ∧ bkt.length ≤ b) ∧
    (∃ bkt, lookupA schemaHash (populateFrequencyCountersBounded cache schemaHash counters b)
        = some bkt ∧ bkt.length ≤ b) := by
  refine ⟨getFCB_bucket_le cache schemaHash key b, ⟨populateLoop b counters 0 [], ?_, ?_⟩⟩
  · simp [populateFrequencyCountersBounded, lookupA_insertA_self]
  · simpa using populateLoop_length_le b counters 0 []

/-- C5: a call on a bucket whose size equals the bound inserts nothing and
evicts nothing: the cache is returned unchanged and the result is the lookup
of the requested field in the existing bucket. -/
theorem getFCB_at_bound (cache : CountersCache) (schemaHash key : String) (b : Nat)
    (bkt : Bucket) (hfound : lookupA schemaHash cache = some bkt)
    (hlen : bkt.length = b) :
    getFrequencyCounterBounded cache schemaHash key b = (lookupA key bkt, cache) := by
  simp [getFrequencyCounterBounded, hfound, hlen]

theorem getFCB_at_bound_check :
    getFrequencyCounterBounded [("h", [("f", NewFrequencyCounter "f")])] "h" "g" 1
      = (none, [("h", [("f", NewFrequencyCounter "f")])]) := by
  have h := getFCB_at_bound [("h", [("f", NewFrequencyCounter "f")])] "h" "g" 1
    [("f", NewFrequencyCounter "f")] (by decide) (by decide)
  rw [h]
  decide

/-- C4: a call on a bucket strictly larger than the bound leaves a bucket of
exactly `b` entries, each drawn from the original bucket (so exactly
`size - b` entries were deleted), and returns the lookup of the requested
field in the trimmed bucket. -/
theorem getFCB_trim (cache : CountersCache) (schemaHash key : String) (b : Nat)
    (bkt : Bucket) (hfound : lookupA schemaHash cache = some bkt)
    (hgt : bkt.length > b) :
    ∃ bkt', lookupA schemaHash (getFrequencyCounterBounded cache schemaHash key b).2
        = some bkt' ∧
      bkt'.length = b ∧ bkt'.Sublist bkt ∧
      (getFrequencyCounterBounded cache schemaHash key b).1 = lookupA key bkt' := by
  have hb : ¬b = bkt.length := by omega
  refine ⟨bkt.drop (bkt.length - b), ?_, ?_, List.drop_sublist _ _, ?_⟩
  · simp [getFrequencyCounterBounded, hfound, hb, hgt, lookupA_insertA_self]
  · simp only [List.length_drop]
    omega
  · simp [getFrequencyCounterBounded, hfound, hb, hgt]

theorem getFCB_trim_check :
    ∃ bkt', lookupA "h" (getFrequencyCounterBounded
        [("h", [("A", NewFrequencyCounter "A"), ("B", NewFrequencyCounter "B"),
          ("C", NewFrequencyCounter "C")])] "h" "C" 1).2 = some bkt' ∧
      bkt'.length = 1 ∧
      bkt'.Sublist [("A", NewFrequencyCounter "A"), ("B", NewFrequencyCounter "B"),
        ("C", NewFrequencyCounter "C")] ∧
      (getFrequencyCounterBounded
        [("h", [("A", NewFrequencyCounter "A"), ("B", NewFrequencyCounter "B"),
          ("C", NewFrequencyCounter "C")])] "h" "C" 1).1 = lookupA "C" bkt' :=
  getFCB_trim _ "h" "C" 1
    [("A", NewFrequencyCounter "A"), ("B", NewFrequencyCounter "B"),
      ("C", NewFrequencyCounter "C")] (by decide) (by decide)

/-- C3 fails as stated: with bound 2 and a bucket of three fields in which the
requested field A stands first in iteration order, the trim evicts A's own
counter and the call returns no counter even though A had one. -/
theorem getFCB_existing_cex :
    lookupA "A" [("A", NewFrequencyCounter "A"), ("B", NewFrequencyCounter "B"),
        ("C", NewFrequencyCounter "C")] = some (NewFrequencyCounter "A") ∧
    (getFrequencyCounterBounded
        [("h", [("A", NewFrequencyCounter "A"), ("B", NewFrequencyCounter "B"),
          ("C", NewFrequencyCounter "C")])] "h" "A" 2).1
      ≠ some (NewFrequencyCounter "A") := by
  decide

/-- C3 (amended): if the bucket already contains a counter for the field and
the bucket size is at most the bound, `getFrequencyCounterBounded` returns
exactly that existing counter; when the size exceeds the bound the counter is
returned only if it survives the order-unspecified trim. -/
theorem getFCB_existing_le_bound (cache : CountersCache) (schemaHash key : String)
    (b : Nat) (bkt : Bucket) (fc : FrequencyCounter)
    (hfound : lookupA schemaHash cache = some bkt) (hle : bkt.length ≤ b)
    (hkey : lookupA key bkt = some fc) :
    (getFrequencyCounterBounded cache schemaHash key b).1 = some fc := by
  by_cases hb : b = bkt.length
  · simp [getFrequencyCounterBounded, hfound, hb, hkey]
  · have hgt : ¬bkt.length > b := by omega
    simp [getFrequencyCounterBounded, hfound, hb, hgt, hkey]

theorem getFCB_existing_le_bound_check :
    (getFrequencyCounterBounded [("h", [("A", NewFrequencyCounter "A")])] "h" "A" 5).1
      = some (NewFrequencyCounter "A") :=
  getFCB_existing_le_bound _ "h" "A" 5 [("A", NewFrequencyCounter "A")]
    (NewFrequencyCounter "A") (by decide) (by decide) (by decide)

theorem getFCB_frame_other (cache : CountersCache) (schemaHash key : String) (b : Nat)
    (h₁ : String) (hne : h₁ ≠ schemaHash) :
    lookupA h₁ (getFrequencyCounterBounded cache schemaHash key b).2 = lookupA h₁ cache := by
  cases hfound : lookupA schemaHash cache with
  | none =>
    by_cases hb : b = 0
    · simp [getFrequencyCounterBounded, hfound, hb, lookupA_insertA_ne hne]
    · simp [getFrequencyCounterBounded, hfound, hb, lookupA, lookupA_insertA_ne hne]
  | some bkt =>
    by_cases hb : b = bkt.length
    · simp [getFrequencyCounterBounded, hfound, hb]
    · by_cases hgt : bkt.length > b
      · simp [getFrequencyCounterBounded, hfound, hb, hgt, lookupA_insertA_ne hne]
      · cases hkey : lookupA key bkt with
        | some fc => simp [getFrequencyCounterBounded, hfound, hb, hgt, hkey]
        | none =>
          simp [getFrequencyCounterBounded, hfound, hb, hgt, hkey, lookupA_insertA_ne hne]

/-- C9: `getFrequencyCounterBounded` modifies at most the bucket of the
requested schema hash — every other hash's bucket is looked up unchanged —
and afterwards a bucket for the requested hash always exists; when the hash
had no bucket and the bound is zero, an empty bucket is created and the call
returns no counter without inserting one. -/
theorem getFCB_frame (cache : CountersCache) (schemaHash key : String) (b : Nat) :
    (∀ h₁, h₁ ≠ schemaHash →
      lookupA h₁ (getFrequencyCounterBounded cache schemaHash key b).2 = lookupA h₁ cache) ∧
    (∃ bkt, lookupA schemaHash (getFrequencyCounterBounded cache schemaHash key b).2
      = some bkt) ∧
    (lookupA schemaHash cache = none → b = 0 →
      (getFrequencyCounterBounded cache schemaHash key b).1 = none ∧
      lookupA schemaHash (getFrequencyCounterBounded cache schemaHash key b).2 = some []) := by
  refine ⟨fun h₁ hne => getFCB_frame_other cache schemaHash key b h₁ hne,
    (getFCB_bucket_le cache schemaHash key b).imp (fun bkt h => h.1), fun hfound hb => ?_⟩
  subst hb
  constructor <;> simp [getFrequencyCounterBounded, hfound, lookupA, lookupA_insertA_self]

theorem getFCB_frame_check :
    lookupA "g" (getFrequencyCounterBounded [("g", [])] "h" "k" 0).2
      = lookupA "g" [("g", [])] ∧
    (getFrequencyCounterBounded [("g", [])] "h" "k" 0).1 = none ∧
    lookupA "h" (getFrequencyCounterBounded [("g", [])] "h" "k" 0).2 = some [] := by
  have h := getFCB_frame [("g", [])] "h" "k" 0
  exact ⟨h.1 "g" (by decide), (h.2.2 (by decide) rfl).1, (h.2.2 (by decide) rfl).2⟩

theorem populateLoop_eq_foldl (bound : Nat) (fcs : List FrequencyCounter) :
    ∀ (count : Nat) (m : Bucket),
      populateLoop bound fcs count m
        = (fcs.take (bound - count)).foldl
            (fun m₁ fc => insertA fc.Name (NewPeristedFrequencyCounter fc) m₁) m := by
  induction fcs with
  | nil => intro count m; simp [populateLoop]
  | cons fc rest ih =>
    intro count m
    by_cases h : count ≥ bound
    · have h₀ : bound - count = 0 := by omega
      simp [populateLoop, h, h₀]
    · have h₂ : bound - count = (bound - (count + 1)) + 1 := by omega
      rw [h₂]
      simp only [List.take_succ_cons, List.foldl_cons]
      simp [populateLoop, h, ih]

theorem mem_buildBucket {p : String × FrequencyCounter} (l : List FrequencyCounter) :
    ∀ acc : Bucket,
      p ∈ l.foldl (fun m fc => insertA fc.Name (NewPeristedFrequencyCounter fc) m) acc →
      p ∈ acc ∨ ∃ fc ∈ l, p = (fc.Name, NewPeristedFrequencyCounter fc) := by
  induction l with
  | nil => intro acc h; exact Or.inl (by simpa using h)
  | cons fc rest ih =>
    intro acc h
    rcases ih _ (by simpa using h) with h₁ | h₁
    · rcases mem_insertA h₁ with h₂ | h₂
      · exact Or.inr ⟨fc, by simp, h₂⟩
      · exact Or.inl h₂
    · obtain ⟨fc₁, hmem, hp⟩ := h₁
      exact Or.inr ⟨fc₁, by simp [hmem], hp⟩

/-- C6: `populateFrequencyCountersBounded` replaces the entire bucket for the
schema hash: the new bucket is determined by the first `b` persisted counters
alone — the statement holds for every previous cache, so nothing previously
cached for that hash survives — and every entry of the new bucket is one of
the first `b` given counters, wrapped by the persisted-counter constructor and
stored under its name. -/
theorem populateFCB_replaces (cache : CountersCache) (schemaHash : String)
    (counters : List FrequencyCounter) (b : Nat) :
    lookupA schemaHash (populateFrequencyCountersBounded cache schemaHash counters b)
      = some ((counters.take b).foldl
          (fun m fc => insertA fc.Name (NewPeristedFrequencyCounter fc) m) []) ∧
    ∀ p ∈ (counters.take b).foldl
        (fun m fc => insertA fc.Name (NewPeristedFrequencyCounter fc) m) ([] : Bucket),
      ∃ fc ∈ counters.take b, p = (fc.Name, NewPeristedFrequencyCounter fc) := by
  constructor
  · simp [populateFrequencyCountersBounded, lookupA_insertA_self, populateLoop_eq_foldl]
  · intro p hp
    rcases mem_buildBucket _ _ hp with h | h
    · simp at h
    · exact h

theorem populateFCB_replaces_check :
    lookupA "h" (populateFrequencyCountersBounded
        [("h", [("old", NewFrequencyCounter "old")])] "h"
        [NewFrequencyCounter "A", NewFrequencyCounter "B"] 1)
      = some [("A", NewPeristedFrequencyCounter (NewFrequencyCounter "A"))] ∧
    ∃ fc ∈ [NewFrequencyCounter "A", NewFrequencyCounter "B"].take 1,
      ("A", NewPeristedFrequencyCounter (NewFrequencyCounter "A"))
        = (fc.Name, NewPeristedFrequencyCounter fc) := by
  have h := populateFCB_replaces [("h", [("old", NewFrequencyCounter "old")])] "h"
    [NewFrequencyCounter "A", NewFrequencyCounter "B"] 1
  refine ⟨?_, h.2 ("A", NewPeristedFrequencyCounter (NewFrequencyCounter "A")) (by decide)⟩
  have h₁ := h.1
  simpa [insertA, NewFrequencyCounter, NewPeristedFrequencyCounter] using h₁

/-- The frequency cap of `getSchemaVersionCounters`: a frequency above 1 is
replaced by exactly 1. -/
def capQ (q : ℚ) : ℚ := if q > 1 then 1 else q

/-- The capped item list `getSchemaVersionCounters` builds for one counter. -/
def cappedItems (fc : FrequencyCounter) : List CounterItem :=
  fc.itemsAboveThreshold.map (fun entry =>
    { Value := entry.Key, Frequency := capQ entry.Frequency })

theorem svcStep_eq (counters : List (String × List CounterItem))
    (p : String × FrequencyCounter) :
    svcStep counters p
      = if (cappedItems p.2).length > 0 then insertA p.1 (cappedItems p.2) counters
        else counters := rfl

theorem mem_foldl_svcStep {q : String × List CounterItem} (l : Bucket) :
    ∀ acc : List (String × List CounterItem), q ∈ l.foldl svcStep acc →
      q ∈ acc ∨ ∃ p ∈ l, q.1 = p.1 ∧ q.2 = cappedItems p.2 ∧ q.2 ≠ [] := by
  induction l with
  | nil => intro acc h; exact Or.inl (by simpa using h)
  | cons p rest ih =>
    intro acc h
    rcases ih _ (by simpa using h) with h₁ | h₁
    · rw [svcStep_eq] at h₁
      by_cases hlen : (cappedItems p.2).length > 0
      · rw [if_pos hlen] at h₁
        rcases mem_insertA h₁ with h₂ | h₂
        · refine Or.inr ⟨p, by simp, by rw [h₂], by rw [h₂], ?_⟩
          rw [h₂]
          intro hnil
          have hnil₂ : cappedItems p.2 = [] := hnil
          rw [hnil₂] at hlen
          simp at hlen
        · exact Or.inl h₂
      · rw [if_neg hlen] at h₁
        exact Or.inl h₁
    · obtain ⟨p₁, hmem, hp⟩ := h₁
      exact Or.inr ⟨p₁, List.mem_cons_of_mem _ hmem, hp⟩

/-- C7: provided the underlying per-value frequencies are nonnegative (they
are ratios of counts), every `CounterItem` returned by
`getSchemaVersionCounters` has `Frequency` in [0,1] — a frequency above 1 is
capped to exactly 1 — and a field key appears in the returned map only if its
counter yields at least one item above the reporting threshold. -/
theorem getSchemaVersionCounters_spec (cache : CountersCache) (schemaHash : String)
    (hnonneg : ∀ p ∈ (lookupA schemaHash cache).getD ([] : Bucket),
      ∀ e ∈ p.2.itemsAboveThreshold, 0 ≤ e.Frequency) :
    ∀ q ∈ getSchemaVersionCounters cache schemaHash,
      (∀ item ∈ q.2, 0 ≤ item.Frequency ∧ item.Frequency ≤ 1) ∧
      q.2 ≠ [] ∧
      ∃ p ∈ (lookupA schemaHash cache).getD ([] : Bucket),
        q.1 = p.1 ∧ p.2.itemsAboveThreshold ≠ [] := by
  intro q hq
  rcases mem_foldl_svcStep _ _ (by simpa [getSchemaVersionCounters] using hq) with h | h
  · simp at h
  · obtain ⟨p, hmem, hfst, hsnd, hne⟩ := h
    refine ⟨?_, hne, p, hmem, hfst, ?_⟩
    · intro item hitem
      rw [hsnd] at hitem
      simp only [cappedItems, List.mem_map] at hitem
      obtain ⟨e, he, hcap⟩ := hitem
      have h₀ : 0 ≤ e.Frequency := hnonneg p hmem e he
      by_cases h₁ : e.Frequency > 1
      · rw [← hcap]
        simp [capQ, h₁]
      · rw [← hcap]
        simp only [capQ, h₁, if_false]
        exact ⟨h₀, le_of_not_lt h₁⟩
    · intro hempty
      rw [hsnd] at hne
      simp [cappedItems, hempty] at hne

/-- Concrete counter whose raw frequencies are 2 and 0 (one above the cap). -/
def demoCounterF : FrequencyCounter :=
  { Name := "f", persisted := false,
    itemsAboveThreshold := [{ Key := "v", Frequency := 2 }, { Key := "w", Frequency := 0 }] }

/-- Concrete counter with no reportable item. -/
def demoCounterG : FrequencyCounter :=
  { Name := "g", persisted := false, itemsAboveThreshold := [] }

/-- Concrete cache holding both demo counters under one schema hash. -/
def demoCache : CountersCache := [("h", [("f", demoCounterF), ("g", demoCounterG)])]

/-- The item list reported for `demoCounterF`: the frequency 2 capped to 1. -/
def demoItems : List CounterItem :=
  [{ Value := "v", Frequency := 1 }, { Value := "w", Frequency := 0 }]

theorem getSchemaVersionCounters_check :
    (∀ item ∈ (("f", demoItems) : String × List CounterItem).2,
        0 ≤ item.Frequency ∧ item.Frequency ≤ 1) ∧
    (("f", demoItems) : String × List CounterItem).2 ≠ [] ∧
    ∃ p ∈ (lookupA "h" demoCache).getD ([] : Bucket),
      (("f", demoItems) : String × List CounterItem).1 = p.1 ∧
      p.2.itemsAboveThreshold ≠ [] := by
  have h := getSchemaVersionCounters_spec demoCache "h" (by decide)
  exact h ("f", demoItems) (by decide)

/-- Scenario state after requesting field A with bound 3 on an empty cache. -/
def scen1 : Option FrequencyCounter × CountersCache :=
  getFrequencyCounterBounded [] "h" "A" 3

/-- Scenario state after also requesting field B. -/
def scen2 : Option FrequencyCounter × CountersCache :=
  getFrequencyCounterBounded scen1.2 "h" "B" 3

/-- Scenario state after also requesting field C. -/
def scen3 : Option FrequencyCounter × CountersCache :=
  getFrequencyCounterBounded scen2.2 "h" "C" 3

/-- Scenario state after also requesting field D. -/
def scen4 : Option FrequencyCounter × CountersCache :=
  getFrequencyCounterBounded scen3.2 "h" "D" 3

/-- Scenario state after a further request on the same hash with bound 2. -/
def scen5 : Option FrequencyCounter × CountersCache :=
  getFrequencyCounterBounded scen4.2 "h" "A" 2

/-- C8: from an empty cache with bound 3, requests for A, B, C, D in order
create counters for exactly A, B and C, return no counter for D, and leave
exactly 3 tracked fields drawn from A, B, C, D; a later call on the same
schema hash with bound 2 trims the bucket to exactly 2 entries. -/
theorem getFCB_scenario :
    scen1.1 = some (NewFrequencyCounter "A") ∧
    scen2.1 = some (NewFrequencyCounter "B") ∧
    scen3.1 = some (NewFrequencyCounter "C") ∧
    scen4.1 = none ∧
    ((lookupA "h" scen4.2).getD []).length = 3 ∧
    (∀ p ∈ (lookupA "h" scen4.2).getD ([] : Bucket),
      p.1 = "A" ∨ p.1 = "B" ∨ p.1 = "C" ∨ p.1 = "D") ∧
    ((lookupA "h" scen5.2).getD []).length = 2 := by
  decide

/-! ### `handleQueryExecution` from `warehouse/postgres/postgresQueryBuilder.go` -/

/-- The driver's answer to a successful `Exec` (`sql.Result` abstracted). -/
structure ExecOutcome where
  rowsAffected : Int
  deriving DecidableEq

/-- An abstract database handle (`*sql.Tx` or `*sql.DB`): how it answers
`Query` (a list of rows, each row scanning to a string or failing) and how it
answers `Exec`. -/
structure DBHandle where
  runQuery : String → Except String (List (Except String String))
  runExec : String → Except String ExecOutcome

/-- One statement sent to storage, tagged with the API used. -/
inductive DBOp where
  | queryOp : String → DBOp
  | execOp : String → DBOp
  deriving DecidableEq

/-- What a call to `handleQueryExecution` did: the returned result and error,
every statement actually sent to storage in order, and the diagnostic log
lines. -/
structure HQEOutcome where
  result : Option ExecOutcome
  err : Option String
  ops : List DBOp
  logs : List String

/-- `QueryExecution` from `postgresQueryBuilder.go`: optional transaction
handle, optional pooled handle, the query, and the plan-logging flag. -/
structure QueryExecution where
  txn : Option DBHandle
  db : Option DBHandle
  query : String
  enableWithQueryPlan : Bool

/-- The error built when both `txn` and `db` are nil. -/
def nilErr (stmt : String) : String :=
  "[WH][POSTGRES] Not able to handle query execution for statement: " ++ stmt
    ++ " as both txn and db are nil"

/-- The wrap applied to an error of the plan `Query`. -/
def queryWrapErr (stmt msg : String) : String :=
  "[WH][POSTGRES] error occurred while handling transaction for query: " ++ stmt
    ++ " with err: " ++ msg

/-- The wrap applied to an error of `rows.Scan`. -/
def scanWrapErr (msg : String) : String :=
  "[WH][POSTGRES] Error occurred while processing destination revisionID query with err: "
    ++ msg

/-- The log line printed after a successful plan query. -/
def planLog (stmt : String) (response : List String) : String :=
  "[WH][POSTGRES] Execution Query plan for statement: " ++ stmt ++ " is "
    ++ String.intercalate "\n" response

/-- The `rows.Next` / `rows.Scan` loop of `handleQueryExecution`: collect the
scanned strings in order, stopping at the first scan failure. -/
def scanRows : List (Except String String) → Except String (List String)
  | [] => .ok []
  | .error e :: _ => .error e
  | .ok s :: rest => (scanRows rest).map (fun r => s :: r)

/-- The dispatch `if e.txn != nil { use txn } else if e.db != nil { use db }`
shared by both halves of `handleQueryExecution`. -/
def pickHandle (txn db : Option DBHandle) : Option DBHandle :=
  match txn with
  | some t => some t
  | none => db

/-- The closing `Exec` dispatch of `handleQueryExecution`: run `sqlStatement`
on the transaction if present, else on the pooled handle, else fail with the
nil-handles error. -/
def execPhase (e : QueryExecution) (sqlStatement : String) (ops : List DBOp)
    (logs : List String) : HQEOutcome :=
  match pickHandle e.txn e.db with
  | none => { result := none, err := some (nilErr sqlStatement), ops := ops, logs := logs }
  | some h =>
    match h.runExec sqlStatement with
    | .ok r =>
      { result := some r, err := none, ops := ops ++ [DBOp.execOp sqlStatement], logs := logs }
    | .error msg =>
      { result := none, err := some msg, ops := ops ++ [DBOp.execOp sqlStatement], logs := logs }

/-- `handleQueryExecution` from `postgresQueryBuilder.go`. `sqlStatement`
starts as the query; when `enableWithQueryPlan` is set the Go code reassigns
it to the EXPLAIN-prefixed statement, queries and logs the plan, and falls
through to the closing `Exec`, which therefore receives whatever
`sqlStatement` holds at that point. -/
def handleQueryExecution (e : QueryExecution) : HQEOutcome :=
  let sqlStatement := e.query
  if e.enableWithQueryPlan then
    let sqlStatement := "EXPLAIN " ++ e.query
    match pickHandle e.txn e.db with
    | none => { result := none, err := some (nilErr sqlStatement), ops := [], logs := [] }
    | some h =>
      match h.runQuery sqlStatement with
      | .error msg =>
        { result := none, err := some (queryWrapErr sqlStatement msg),
          ops := [DBOp.queryOp sqlStatement], logs := [] }
      | .ok rows =>
        match scanRows rows with
        | .error msg =>
          { result := none, err := some (scanWrapErr msg),
            ops := [DBOp.queryOp sqlStatement], logs := [] }
        | .ok response =>
          execPhase e sqlStatement [DBOp.queryOp sqlStatement] [planLog sqlStatement response]
  else
    execPhase e sqlStatement [] []

/-- A demo backend whose plan query answers one row and whose `Exec`
succeeds. -/
def demoHandle : DBHandle where
  runQuery := fun _ => .ok [.ok "Seq Scan"]
  runExec := fun _ => .ok { rowsAffected := 0 }

/-- C2 fails on the code: with `enableWithQueryPlan` set, the closing `Exec`
receives the EXPLAIN-prefixed statement, so the original statement is never
executed against storage; with the flag off it is. -/
theorem handleQueryExecution_explain_bug :
    (handleQueryExecution
        { txn := some demoHandle, db := none,
          query := "DELETE FROM users", enableWithQueryPlan := true }).ops
      = [DBOp.queryOp "EXPLAIN DELETE FROM users",
         DBOp.execOp "EXPLAIN DELETE FROM users"] ∧
    DBOp.execOp "DELETE FROM users" ∉
      (handleQueryExecution
        { txn := some demoHandle, db := none,
          query := "DELETE FROM users", enableWithQueryPlan := true }).ops ∧
    (handleQueryExecution
        { txn := some demoHandle, db := none,
          query := "DELETE FROM users", enableWithQueryPlan := false }).ops
      = [DBOp.execOp "DELETE FROM users"] := by
  decide

/-- C10: when both the transaction handle and the pooled handle are nil,
`handleQueryExecution` returns a non-nil error and a nil result without
sending any statement to storage, for every query string and either value of
`enableWithQueryPlan`. -/
theorem handleQueryExecution_nil_handles (query : String) (flag : Bool) :
    (handleQueryExecution
        { txn := none, db := none, query := query, enableWithQueryPlan := flag }).result
      = none ∧
    ((handleQueryExecution
        { txn := none, db := none, query := query, enableWithQueryPlan := flag }).err).isSome
      = true ∧
    (handleQueryExecution
        { txn := none, db := none, query := query, enableWithQueryPlan := flag }).ops
      = [] := by
  cases flag <;> simp [handleQueryExecution, pickHandle, execPhase]
